import Mathlib

set_option maxRecDepth 100000

/-
Verification of the Blasius boundary-layer solver: a fixed-step RK4
integrator (`runge_kutta_4th_order`) wrapped in a secant-method shooting
loop (`secant_method`).  Real arithmetic is modelled exactly over ℚ
(division is total with x / 0 = 0, as usual in a shallow embedding).
-/

/-- State vector (f, f', f'') of the first-order Blasius system.  The
source keeps three parallel lists `f`, `fp`, `fpp`; an RK4 `k` array
`[k[0], k[1], k[2]]` corresponds to the fields `(f, fp, fpp)`. -/
@[ext]
structure BState where
  f : ℚ
  fp : ℚ
  fpp : ℚ
  deriving DecidableEq, Repr

/-- One iteration of the source's RK4 loop body, acting on the current
state `s = (f[-1], fp[-1], fpp[-1])`:

    k1 = h * [fp, fpp, -0.5*f*fpp]
    k2 = h * [fp + 0.5*k1[1], fpp + 0.5*k1[2], -0.5*(f+0.5*k1[0])*(fpp+0.5*k1[2])]
    k3 = h * [fp + 0.5*k2[1], fpp + 0.5*k2[2], -0.5*(f+0.5*k2[0])*(fpp+0.5*k2[2])]
    k4 = h * [fp + k3[1], fpp + k3[2], -0.5*(f+k3[0])*(fpp+k3[2])]

and the appended next values `x[-1] + (k1[i] + 2*k2[i] + 2*k3[i] + k4[i])/6`. -/
def rk4Step (h : ℚ) (s : BState) : BState :=
  let k1 : BState := ⟨h * s.fp, h * s.fpp, h * (-0.5 * s.f * s.fpp)⟩
  let k2 : BState := ⟨h * (s.fp + 0.5 * k1.fp), h * (s.fpp + 0.5 * k1.fpp),
    h * (-0.5 * (s.f + 0.5 * k1.f) * (s.fpp + 0.5 * k1.fpp))⟩
  let k3 : BState := ⟨h * (s.fp + 0.5 * k2.fp), h * (s.fpp + 0.5 * k2.fpp),
    h * (-0.5 * (s.f + 0.5 * k2.f) * (s.fpp + 0.5 * k2.fpp))⟩
  let k4 : BState := ⟨h * (s.fp + k3.fp), h * (s.fpp + k3.fpp),
    h * (-0.5 * (s.f + k3.f) * (s.fpp + k3.fpp))⟩
  ⟨s.f + (k1.f + 2 * k2.f + 2 * k3.f + k4.f) / 6,
   s.fp + (k1.fp + 2 * k2.fp + 2 * k3.fp + k4.fp) / 6,
   s.fpp + (k1.fpp + 2 * k2.fpp + 2 * k3.fpp + k4.fpp) / 6⟩

/-- Exact-arithmetic model of `numpy.arange(0, stop, step)`: the values
`0, step, 2*step, ...`, of length `⌈stop / step⌉` clamped at 0 (numpy
computes `ceil((stop - start) / step)` elements, none when that is
non-positive). -/
def arange (stop step : ℚ) : List ℚ :=
  (List.range (⌈stop / step⌉).toNat).map (fun i : ℕ => (i : ℚ) * step)

/-- The list of states laid down by the source's append loop: starting
from the initial state, each loop iteration appends `rk4Step` of the
last state, so the trajectory after `n` iterations is the list of the
first `n + 1` iterates of `rk4Step`. -/
def trajStates (h : ℚ) (s : BState) : ℕ → List BState
  | 0 => [s]
  | n + 1 => s :: trajStates h (rk4Step h s) n

/-- Return value of the integrator: the four parallel arrays
`(f, fp, fpp, eta)`. -/
structure RKOut where
  f : List ℚ
  fp : List ℚ
  fpp : List ℚ
  eta : List ℚ
  deriving DecidableEq, Repr

/-- The source integrator.  Initial lists `f = [0]`, `fp = [0]`,
`fpp = [f1_0]`; grid `eta = arange(0, eta_max + h, h)`; then
`for i in range(1, len(eta))` appends one RK4 update per grid point
(that is `len(eta) - 1` iterations, none when the grid has at most one
point — ℕ subtraction matches `range(1, len(eta))` exactly). -/
def runge_kutta_4th_order (f1_0 eta_max h : ℚ) : RKOut :=
  let eta := arange (eta_max + h) h
  let states := trajStates h ⟨0, 0, f1_0⟩ (eta.length - 1)
  ⟨states.map BState.f, states.map BState.fp, states.map BState.fpp, eta⟩

/-- The scalar the shooting loop reads off an integration: `fp[-1]`, the
final value of f'.  The `fp` list is never empty (it starts with one
element), so the default of `getLastD` is never used. -/
def fpLast (f1_0 eta_max h : ℚ) : ℚ :=
  (runge_kutta_4th_order f1_0 eta_max h).fp.getLastD 0

/-- The only error the source's shooting loop can raise:
`RuntimeError("Secant method did not converge after 100 iterations")`. -/
inductive SecantError where
  | runtimeError : String → SecantError
  deriving DecidableEq, Repr

/-- Successful return value of `secant_method`:
`(f, fp, fpp, f2_new, i)`. -/
structure SecantOut where
  f : List ℚ
  fp : List ℚ
  fpp : List ℚ
  f2 : ℚ
  iterations : ℕ
  deriving DecidableEq, Repr

/-- Message of the source's `RuntimeError`. -/
def nonConvergenceMsg : String :=
  "Secant method did not converge after 100 iterations"

/-- The source's secant update expression
`f1_0_new - (f2_new - 1) * (f1_0_new - f1_0_old) / (f2_new - f2_old)`
(Python precedence: `a - b * c / d = a - ((b * c) / d)`). -/
def secantUpdate (f1_0_old f2_old f1_0_new f2_new : ℚ) : ℚ :=
  f1_0_new - (f2_new - 1) * (f1_0_new - f1_0_old) / (f2_new - f2_old)

/-- The source's `for i in range(100)` loop, with `fuel` the number of
remaining iterations and `i` the current iteration index (the top-level
call has `fuel = 100`, `i = 0`).  Falling out of the loop raises the
`RuntimeError`; convergence returns `(f, fp, fpp, f2_new, i)`; otherwise
the rolling state is shifted `(f1_0_old, f2_old) := (f1_0_new, f2_new)`
and the trial parameter becomes the secant update. -/
def secantGo (tol eta_max h : ℚ) : ℕ → ℕ → ℚ → ℚ → ℚ → Except SecantError SecantOut
  | 0, _, _, _, _ => .error (.runtimeError nonConvergenceMsg)
  | fuel + 1, i, f1_0_old, f2_old, f1_0_new =>
    let out := runge_kutta_4th_order f1_0_new eta_max h
    let f2_new := out.fp.getLastD 0
    if |f2_new - 1| < tol then
      .ok ⟨out.f, out.fp, out.fpp, f2_new, i⟩
    else
      secantGo tol eta_max h fuel (i + 1) f1_0_new f2_new
        (secantUpdate f1_0_old f2_old f1_0_new f2_new)

/-- The source's shooting solver: unpack the two seed guesses, compute
`f2_old` from the first, then run the 100-iteration secant loop on the
second. -/
def secant_method (f1_0_guesses : ℚ × ℚ) (tol eta_max h : ℚ) :
    Except SecantError SecantOut :=
  let f1_0_old := f1_0_guesses.1
  let f1_0_new := f1_0_guesses.2
  let f2_old := (runge_kutta_4th_order f1_0_old eta_max h).fp.getLastD 0
  secantGo tol eta_max h 100 0 f1_0_old f2_old f1_0_new

/-- Spec-side derivative function: `D(s) = [s.f', s.f'', -0.5 * s.f * s.f'']`. -/
def specD (s : BState) : BState := ⟨s.fp, s.fpp, -0.5 * s.f * s.fpp⟩

/-- Componentwise sum of state vectors. -/
def BState.add (s t : BState) : BState := ⟨s.f + t.f, s.fp + t.fp, s.fpp + t.fpp⟩

/-- Scalar multiple of a state vector. -/
def BState.smul (c : ℚ) (s : BState) : BState := ⟨c * s.f, c * s.fp, c * s.fpp⟩

/-- Spec-side RK4 step, written exactly as the spec states it:
`k1 = h·D(s)`, `k2 = h·D(s + 0.5·k1)`, `k3 = h·D(s + 0.5·k2)`,
`k4 = h·D(s + k3)`, `s_next = s + (k1 + 2·k2 + 2·k3 + k4) / 6`. -/
def rk4StepSpec (h : ℚ) (s : BState) : BState :=
  let k1 := (specD s).smul h
  let k2 := (specD (s.add (k1.smul 0.5))).smul h
  let k3 := (specD (s.add (k2.smul 0.5))).smul h
  let k4 := (specD (s.add k3)).smul h
  s.add ((((k1.add (k2.smul 2)).add (k3.smul 2)).add k4).smul (1 / 6))

/-- Spec-side residual `R(x) = f'(eta_max; x) - 1`. -/
def specResidual (f1_0 eta_max h : ℚ) : ℚ := fpLast f1_0 eta_max h - 1

/-- Spec-side secant formula over residuals:
`f1_0_next = f1_0_new - R_new * (f1_0_new - f1_0_old) / (R_new - R_old)`. -/
def specSecantNext (f1_0_old f1_0_new R_old R_new : ℚ) : ℚ :=
  f1_0_new - R_new * (f1_0_new - f1_0_old) / (R_new - R_old)

/-- One transition of the shooting loop's rolling state
`(f1_0_old, f2_old, f1_0_new)`, as performed by a non-converged
iteration of `secantGo`. -/
def secantStep (eta_max h : ℚ) (st : ℚ × ℚ × ℚ) : ℚ × ℚ × ℚ :=
  (st.2.2, fpLast st.2.2 eta_max h,
    secantUpdate st.1 st.2.1 st.2.2 (fpLast st.2.2 eta_max h))

/-- The trial parameter the loop would examine at iteration `j`, read
off the `j`-th iterate of the rolling-state transition. -/
def trialAt (eta_max h : ℚ) (st : ℚ × ℚ × ℚ) (j : ℕ) : ℚ :=
  ((secantStep eta_max h)^[j] st).2.2

/-- The rolling state `(f1_0_old, f2_old, f1_0_new)` as `secant_method`
initialises it from the seed pair. -/
def secantState0 (g : ℚ × ℚ) (eta_max h : ℚ) : ℚ × ℚ × ℚ :=
  (g.1, fpLast g.1 eta_max h, g.2)

lemma trajStates_length (h : ℚ) (s : BState) (n : ℕ) :
    (trajStates h s n).length = n + 1 := by
  induction n generalizing s with
  | zero => rfl
  | succ n ih => simp [trajStates, ih]

lemma trajStates_map_head (g : BState → ℚ) (h : ℚ) (s : BState) (n : ℕ) :
    ((trajStates h s n).map g).head? = some (g s) := by
  cases n <;> rfl

lemma rk4Step_zero (h : ℚ) : rk4Step h ⟨0, 0, 0⟩ = ⟨0, 0, 0⟩ := by
  simp only [rk4Step, BState.mk.injEq]
  refine ⟨?_, ?_, ?_⟩ <;> ring

lemma trajStates_zero (h : ℚ) (n : ℕ) :
    trajStates h ⟨0, 0, 0⟩ n = List.replicate (n + 1) ⟨0, 0, 0⟩ := by
  induction n with
  | zero => rfl
  | succ n ih => simp [trajStates, rk4Step_zero, ih, List.replicate_succ]

/-- C1: each integrator step computes `k1 = h*D(s)`, `k2 = h*D(s + 0.5*k1)`,
`k3 = h*D(s + 0.5*k2)`, `k4 = h*D(s + k3)` with
`D(s) = [s.f', s.f'', -0.5*s.f*s.f'']` and sets the next state to
`s + (k1 + 2*k2 + 2*k3 + k4)/6`; in particular the nonlinear term of
k2/k3/k4 is evaluated at the partially updated f and f'' components, as
the spec-side `rk4StepSpec` does via `D` at the intermediate states. -/
theorem rk4_step_matches_spec (h : ℚ) (s : BState) :
    rk4Step h s = rk4StepSpec h s := by
  simp only [rk4Step, rk4StepSpec, specD, BState.add, BState.smul, BState.mk.injEq]
  refine ⟨?_, ?_, ?_⟩ <;> ring

/-- C7: for every integration (any trial parameter, any eta_max, any h),
the first elements of the returned sequences are `f[0] = 0`, `fp[0] = 0`
and `fpp[0] = f1_0`, the supplied trial parameter. -/
theorem initial_condition_property (f1_0 eta_max h : ℚ) :
    (runge_kutta_4th_order f1_0 eta_max h).f.head? = some 0 ∧
    (runge_kutta_4th_order f1_0 eta_max h).fp.head? = some 0 ∧
    (runge_kutta_4th_order f1_0 eta_max h).fpp.head? = some f1_0 := by
  refine ⟨?_, ?_, ?_⟩ <;>
    simpa only [runge_kutta_4th_order] using trajStates_map_head _ h ⟨0, 0, f1_0⟩ _

/-- C9: for a trial parameter of 0, the integrator returns the
identically zero trajectory — every entry of `f`, `fp` and `fpp` is 0 —
for any eta_max and any h > 0 (the zero state is a fixed point of each
RK4 update, see `rk4Step_zero`). -/
theorem zero_trial_zero_trajectory (eta_max h : ℚ) (_hh : 0 < h) :
    (∀ x ∈ (runge_kutta_4th_order 0 eta_max h).f, x = 0) ∧
    (∀ x ∈ (runge_kutta_4th_order 0 eta_max h).fp, x = 0) ∧
    (∀ x ∈ (runge_kutta_4th_order 0 eta_max h).fpp, x = 0) := by
  refine ⟨?_, ?_, ?_⟩ <;>
  · simp only [runge_kutta_4th_order, trajStates_zero, List.mem_map]
    rintro x ⟨a, ha, rfl⟩
    rw [List.eq_of_mem_replicate ha]

/-- Witness for C9 at eta_max = 1, h = 1. -/
theorem zero_trial_zero_trajectory_witness :
    (0 : ℚ) < 1 ∧
    ((∀ x ∈ (runge_kutta_4th_order 0 1 1).f, x = 0) ∧
     (∀ x ∈ (runge_kutta_4th_order 0 1 1).fp, x = 0) ∧
     (∀ x ∈ (runge_kutta_4th_order 0 1 1).fpp, x = 0)) :=
  ⟨by norm_num, zero_trial_zero_trajectory 1 1 (by norm_num)⟩

lemma secantGo_succ (tol eta_max h : ℚ) (fuel i : ℕ) (a b c : ℚ) :
    secantGo tol eta_max h (fuel + 1) i a b c =
      if |fpLast c eta_max h - 1| < tol then
        .ok ⟨(runge_kutta_4th_order c eta_max h).f,
             (runge_kutta_4th_order c eta_max h).fp,
             (runge_kutta_4th_order c eta_max h).fpp,
             fpLast c eta_max h, i⟩
      else
        secantGo tol eta_max h fuel (i + 1) c (fpLast c eta_max h)
          (secantUpdate a b c (fpLast c eta_max h)) := rfl

/-- C2: on a non-converged iteration, the code's update with raw final
f' values, `f1_0_new - (f2_new - 1)*(f1_0_new - f1_0_old)/(f2_new - f2_old)`,
equals the spec's secant formula over residuals `R(x) = f'(eta_max; x) - 1`,
because the `-1` offsets cancel in the denominator; and the loop shifts
the rolling state to `(f1_0_old, f2_old) := (f1_0_new, f2_new)` while
installing that update as the next trial parameter. -/
theorem secant_update_refinement (tol eta_max h f1_0_old f2_old f1_0_new : ℚ)
    (fuel i : ℕ)
    (hnc : ¬(|fpLast f1_0_new eta_max h - 1| < tol)) :
    secantUpdate f1_0_old f2_old f1_0_new (fpLast f1_0_new eta_max h) =
      specSecantNext f1_0_old f1_0_new (f2_old - 1) (specResidual f1_0_new eta_max h) ∧
    secantGo tol eta_max h (fuel + 1) i f1_0_old f2_old f1_0_new =
      secantGo tol eta_max h fuel (i + 1) f1_0_new (fpLast f1_0_new eta_max h)
        (secantUpdate f1_0_old f2_old f1_0_new (fpLast f1_0_new eta_max h)) := by
  constructor
  · simp only [secantUpdate, specSecantNext, specResidual, sub_sub_sub_cancel_right]
  · rw [secantGo_succ, if_neg hnc]

/-- Witness for C2 at tol = 1, eta_max = h = 1, zero rolling state (the
trial parameter 0 yields final f' equal to 0, so its residual is not
within tolerance 1). -/
theorem secant_update_refinement_witness :
    ¬(|fpLast 0 1 1 - 1| < 1) ∧
    (secantUpdate 0 0 0 (fpLast 0 1 1) =
       specSecantNext 0 0 (0 - 1) (specResidual 0 1 1) ∧
     secantGo 1 1 1 (0 + 1) 0 0 0 0 =
       secantGo 1 1 1 0 (0 + 1) 0 (fpLast 0 1 1)
         (secantUpdate 0 0 0 (fpLast 0 1 1))) :=
  ⟨by with_unfolding_all decide,
   secant_update_refinement 1 1 1 0 0 0 0 0 (by with_unfolding_all decide)⟩

lemma trialAt_zero (eta_max h a b c : ℚ) :
    trialAt eta_max h (a, b, c) 0 = c := rfl

lemma trialAt_succ_shift (eta_max h a b c : ℚ) (j : ℕ) :
    trialAt eta_max h (a, b, c) (j + 1) =
      trialAt eta_max h
        (c, fpLast c eta_max h, secantUpdate a b c (fpLast c eta_max h)) j := by
  simp [trialAt, Function.iterate_succ_apply, secantStep]

lemma secantGo_error_iff (tol eta_max h : ℚ) :
    ∀ (fuel i : ℕ) (a b c : ℚ),
      (secantGo tol eta_max h fuel i a b c =
          .error (.runtimeError nonConvergenceMsg) ↔
        ∀ j < fuel, ¬(|fpLast (trialAt eta_max h (a, b, c) j) eta_max h - 1| < tol)) := by
  intro fuel
  induction fuel with
  | zero => intro i a b c; simp [secantGo]
  | succ fuel ih =>
    intro i a b c
    rw [secantGo_succ]
    by_cases hc : |fpLast c eta_max h - 1| < tol
    · rw [if_pos hc]
      constructor
      · intro hcontra; exact Except.noConfusion hcontra
      · intro hall
        exact absurd hc (by simpa [trialAt_zero] using hall 0 (Nat.succ_pos fuel))
    · rw [if_neg hc]
      rw [ih (i + 1) c (fpLast c eta_max h) (secantUpdate a b c (fpLast c eta_max h))]
      constructor
      · intro hall j hj
        match j with
        | 0 => rw [trialAt_zero]; exact hc
        | j + 1 =>
          rw [trialAt_succ_shift]
          exact hall j (by omega)
      · intro hall j hj
        rw [← trialAt_succ_shift]
        exact hall (j + 1) (by omega)

lemma secantGo_error_unique (tol eta_max h : ℚ) :
    ∀ (fuel i : ℕ) (a b c : ℚ) (e : SecantError),
      secantGo tol eta_max h fuel i a b c = .error e →
      e = .runtimeError nonConvergenceMsg := by
  intro fuel
  induction fuel with
  | zero =>
    intro i a b c e hE
    simpa [secantGo] using hE.symm
  | succ fuel ih =>
    intro i a b c e hE
    rw [secantGo_succ] at hE
    by_cases hc : |fpLast c eta_max h - 1| < tol
    · rw [if_pos hc] at hE; exact Except.noConfusion hE
    · rw [if_neg hc] at hE; exact ih _ _ _ _ _ hE

lemma secantGo_converge (tol eta_max h : ℚ) :
    ∀ (fuel i j : ℕ) (a b c : ℚ), j < fuel →
      |fpLast (trialAt eta_max h (a, b, c) j) eta_max h - 1| < tol →
      (∀ m < j, ¬(|fpLast (trialAt eta_max h (a, b, c) m) eta_max h - 1| < tol)) →
      secantGo tol eta_max h fuel i a b c =
        .ok ⟨(runge_kutta_4th_order (trialAt eta_max h (a, b, c) j) eta_max h).f,
             (runge_kutta_4th_order (trialAt eta_max h (a, b, c) j) eta_max h).fp,
             (runge_kutta_4th_order (trialAt eta_max h (a, b, c) j) eta_max h).fpp,
             fpLast (trialAt eta_max h (a, b, c) j) eta_max h, i + j⟩ := by
  intro fuel
  induction fuel with
  | zero => intro i j a b c hj; exact absurd hj (Nat.not_lt_zero j)
  | succ fuel ih =>
    intro i j a b c hj hc hmin
    rw [secantGo_succ]
    match j with
    | 0 =>
      rw [trialAt_zero] at hc
      rw [if_pos hc]
      simp [trialAt_zero]
    | j + 1 =>
      have h0 : ¬(|fpLast c eta_max h - 1| < tol) := by
        have := hmin 0 (Nat.succ_pos j)
        rwa [trialAt_zero] at this
      rw [if_neg h0]
      have hstep := ih (i + 1) j c (fpLast c eta_max h)
        (secantUpdate a b c (fpLast c eta_max h)) (by omega)
        (by rwa [trialAt_succ_shift] at hc)
        (fun m hm => by
          rw [← trialAt_succ_shift]
          exact hmin (m + 1) (by omega))
      rw [trialAt_succ_shift eta_max h a b c j,
        show i + (j + 1) = (i + 1) + j from by omega]
      exact hstep

/-- C3 (amended): the shooting loop has no DegenerateSecantStep error.
When two guesses produce identical residuals the division is performed
anyway (the quotient is the non-finite propagated value in float
arithmetic, 0 in this exact embedding) and the only error the solver can
ever surface — degenerate seeds included — is the single non-convergence
`RuntimeError`. -/
theorem degenerate_step_no_distinct_error (g : ℚ × ℚ) (tol eta_max h : ℚ)
    (e : SecantError) (hE : secant_method g tol eta_max h = .error e) :
    e = .runtimeError nonConvergenceMsg :=
  secantGo_error_unique tol eta_max h 100 0 g.1 (fpLast g.1 eta_max h) g.2 e hE

/-- Witness for C3's amended theorem: the degenerate seed pair (0, 0)
does make `secant_method` fail, and the theorem applies to that failure. -/
theorem degenerate_step_no_distinct_error_witness :
    secant_method (0, 0) 1 1 1 = .error (.runtimeError nonConvergenceMsg) ∧
    SecantError.runtimeError nonConvergenceMsg = .runtimeError nonConvergenceMsg := by
  have hE : secant_method (0, 0) 1 1 1 = .error (.runtimeError nonConvergenceMsg) := by
    with_unfolding_all rfl
  exact ⟨hE, degenerate_step_no_distinct_error (0, 0) 1 1 1 _ hE⟩

/-- C3 counterexample: seed guesses (0, 0) produce identical residuals
(R_new - R_old = 0) with |R_new| = 1 at or above the tolerance 1, yet the
solver does not raise any distinct degenerate-step error: it runs its
100 iterations and raises the generic non-convergence `RuntimeError`. -/
theorem degenerate_secant_counterexample :
    ¬(|fpLast 0 1 1 - 1| < 1) ∧
    secant_method (0, 0) 1 1 1 = .error (.runtimeError nonConvergenceMsg) := by
  constructor
  · with_unfolding_all decide
  · with_unfolding_all rfl

/-- C4 (amended): the solver fails — necessarily with the one fixed
`RuntimeError` whose message names the 100-iteration limit (it does not
carry the achieved residual) — if and only if all 100 iterations pass
without the examined residual entering the tolerance band; in
particular with tolerance 0 the strict comparison `|f2_new - 1| < 0`
never succeeds and the solver always raises that error. -/
theorem nonconvergence_characterisation (g : ℚ × ℚ) (tol eta_max h : ℚ) :
    (secant_method g tol eta_max h = .error (.runtimeError nonConvergenceMsg) ↔
      ∀ j < 100,
        ¬(|fpLast (trialAt eta_max h (secantState0 g eta_max h) j) eta_max h - 1| < tol)) ∧
    (tol = 0 →
      secant_method g tol eta_max h = .error (.runtimeError nonConvergenceMsg)) := by
  have key := secantGo_error_iff tol eta_max h 100 0 g.1 (fpLast g.1 eta_max h) g.2
  have hsm : secant_method g tol eta_max h =
      secantGo tol eta_max h 100 0 g.1 (fpLast g.1 eta_max h) g.2 := rfl
  have hst : secantState0 g eta_max h = (g.1, fpLast g.1 eta_max h, g.2) := rfl
  constructor
  · rw [hsm, hst]; exact key
  · intro ht
    rw [hsm, key]
    intro j hj
    rw [ht]
    exact not_lt.mpr (abs_nonneg _)

/-- Witness for C4's amended theorem: with tolerance 0 the run from
seeds (0, 0) raises the non-convergence error. -/
theorem nonconvergence_characterisation_witness :
    secant_method (0, 0) 0 1 1 = .error (.runtimeError nonConvergenceMsg) :=
  (nonconvergence_characterisation (0, 0) 0 1 1).2 rfl

/-- C4 counterexample: two exhausted runs whose achieved residuals
differ return the very same error value, so the error cannot carry the
achieved residual as the claim states (it is the fixed message naming
only the iteration limit). -/
theorem nonconvergence_payload_counterexample :
    secant_method (0, 0) 0 1 1 = .error (.runtimeError nonConvergenceMsg) ∧
    secant_method (2, 2) 0 1 1 = .error (.runtimeError nonConvergenceMsg) ∧
    specResidual 0 1 1 ≠ specResidual 2 1 1 := by
  refine ⟨?_, ?_, ?_⟩
  · with_unfolding_all rfl
  · with_unfolding_all rfl
  · with_unfolding_all decide

/-- C5: when iteration j is the first whose trial parameter's trajectory
satisfies `|f'(eta_max) - 1| < tol` (and j is within the 100-iteration
cap), `solve` returns that trial's full trajectory (the f, f', f''
sequences), the converged raw value `f'(eta_max)` itself — not the
zero-shifted residual — and the iteration count j. -/
theorem convergence_returns (g : ℚ × ℚ) (tol eta_max h : ℚ) (j : ℕ)
    (hj : j < 100)
    (hc : |fpLast (trialAt eta_max h (secantState0 g eta_max h) j) eta_max h - 1| < tol)
    (hmin : ∀ m < j,
      ¬(|fpLast (trialAt eta_max h (secantState0 g eta_max h) m) eta_max h - 1| < tol)) :
    secant_method g tol eta_max h =
      .ok ⟨(runge_kutta_4th_order
              (trialAt eta_max h (secantState0 g eta_max h) j) eta_max h).f,
           (runge_kutta_4th_order
              (trialAt eta_max h (secantState0 g eta_max h) j) eta_max h).fp,
           (runge_kutta_4th_order
              (trialAt eta_max h (secantState0 g eta_max h) j) eta_max h).fpp,
           fpLast (trialAt eta_max h (secantState0 g eta_max h) j) eta_max h, j⟩ := by
  have hst : secantState0 g eta_max h = (g.1, fpLast g.1 eta_max h, g.2) := rfl
  rw [hst] at hc hmin ⊢
  have key := secantGo_converge tol eta_max h 100 0 j g.1 (fpLast g.1 eta_max h) g.2
    hj hc hmin
  rw [Nat.zero_add] at key
  exact key

/-- Witness for C5: from seeds (0, 0) with tolerance 2 the very first
examined trial (the second seed, 0) already satisfies |0 - 1| < 2, so
the solver converges at iteration 0. -/
theorem convergence_returns_witness :
    secant_method (0, 0) 2 1 1 =
      .ok ⟨(runge_kutta_4th_order
              (trialAt 1 1 (secantState0 (0, 0) 1 1) 0) 1 1).f,
           (runge_kutta_4th_order
              (trialAt 1 1 (secantState0 (0, 0) 1 1) 0) 1 1).fp,
           (runge_kutta_4th_order
              (trialAt 1 1 (secantState0 (0, 0) 1 1) 0) 1 1).fpp,
           fpLast (trialAt 1 1 (secantState0 (0, 0) 1 1) 0) 1 1, 0⟩ :=
  convergence_returns (0, 0) 2 1 1 0 (by omega)
    (by with_unfolding_all decide)
    (fun m hm => absurd hm (Nat.not_lt_zero m))

/-- C10: if the second seed guess already satisfies the tolerance, solve
returns at iteration count 0 with that guess's trajectory and raw final
f' value, and the entire return value is independent of the first seed
guess: two calls differing only in the first seed return identical
results. -/
theorem second_seed_noninterference (a a' b tol eta_max h : ℚ)
    (hb : |fpLast b eta_max h - 1| < tol) :
    secant_method (a, b) tol eta_max h =
      .ok ⟨(runge_kutta_4th_order b eta_max h).f,
           (runge_kutta_4th_order b eta_max h).fp,
           (runge_kutta_4th_order b eta_max h).fpp,
           fpLast b eta_max h, 0⟩ ∧
    secant_method (a, b) tol eta_max h = secant_method (a', b) tol eta_max h := by
  have key : ∀ x : ℚ,
      secant_method (x, b) tol eta_max h =
        .ok ⟨(runge_kutta_4th_order b eta_max h).f,
             (runge_kutta_4th_order b eta_max h).fp,
             (runge_kutta_4th_order b eta_max h).fpp,
             fpLast b eta_max h, 0⟩ := by
    intro x
    show secantGo tol eta_max h 100 0 x (fpLast x eta_max h) b = _
    rw [show (100 : ℕ) = 99 + 1 from rfl, secantGo_succ, if_pos hb]
  exact ⟨key a, (key a).trans (key a').symm⟩

/-- Witness for C10 with first seeds 5 and 7 and second seed 0, at
tolerance 2 (the trial 0 gives |0 - 1| < 2). -/
theorem second_seed_noninterference_witness :
    (secant_method (5, 0) 2 1 1 =
      .ok ⟨(runge_kutta_4th_order 0 1 1).f,
           (runge_kutta_4th_order 0 1 1).fp,
           (runge_kutta_4th_order 0 1 1).fpp,
           fpLast 0 1 1, 0⟩ ∧
    secant_method (5, 0) 2 1 1 = secant_method (7, 0) 2 1 1) :=
  second_seed_noninterference 5 7 0 2 1 1 (by with_unfolding_all decide)

lemma rk_eta (f1_0 eta_max h : ℚ) :
    (runge_kutta_4th_order f1_0 eta_max h).eta = arange (eta_max + h) h := rfl

lemma arange_grid_length (eta_max h : ℚ) (hh : 0 < h) (hm : 0 ≤ eta_max) :
    ((arange (eta_max + h) h).length : ℤ) = ⌈eta_max / h⌉ + 1 := by
  simp only [arange, List.length_map, List.length_range]
  have h1 : (eta_max + h) / h = eta_max / h + 1 := by
    rw [add_div, div_self (ne_of_gt hh)]
  rw [h1, Int.ceil_add_one]
  have h2 : (0 : ℤ) ≤ ⌈eta_max / h⌉ := Int.ceil_nonneg (div_nonneg hm hh.le)
  omega

lemma arange_head (eta_max h : ℚ) (hh : 0 < h) (hm : 0 ≤ eta_max) :
    (arange (eta_max + h) h).head? = some 0 := by
  have h2 : (0 : ℤ) ≤ ⌈eta_max / h⌉ := Int.ceil_nonneg (div_nonneg hm hh.le)
  have h1 : (eta_max + h) / h = eta_max / h + 1 := by
    rw [add_div, div_self (ne_of_gt hh)]
  unfold arange
  rw [h1, Int.ceil_add_one]
  obtain ⟨m, hm'⟩ : ∃ m, (⌈eta_max / h⌉ + 1).toNat = m + 1 :=
    ⟨(⌈eta_max / h⌉).toNat, by omega⟩
  rw [hm', List.range_succ_eq_map]
  simp

lemma arange_pairwise_lt (stop h : ℚ) (hh : 0 < h) :
    (arange stop h).Pairwise (· < ·) := by
  unfold arange
  refine List.Pairwise.map _ ?_ (List.pairwise_lt_range _)
  intro a b hab
  exact mul_lt_mul_of_pos_right (by exact_mod_cast hab) hh

lemma arange_getD (stop h : ℚ) (i : ℕ) (hi : i < (arange stop h).length) :
    (arange stop h).getD i 0 = (i : ℚ) * h := by
  unfold arange at hi ⊢
  simp only [List.length_map, List.length_range] at hi
  rw [List.getD_eq_getElem _ _ (by simpa using hi)]
  simp

/-- C6 (amended): for any eta_max ≥ 0 and any h > 0, the eta sequence
produced by the integrator starts at 0, is strictly increasing, has
uniform spacing h between consecutive points, and has length
⌈eta_max/h⌉ + 1.  (For eta_max < -h the claim fails: the grid is empty,
see the counterexample.) -/
theorem grid_properties (f1_0 eta_max h : ℚ) (hm : 0 ≤ eta_max) (hh : 0 < h) :
    (runge_kutta_4th_order f1_0 eta_max h).eta.head? = some 0 ∧
    (runge_kutta_4th_order f1_0 eta_max h).eta.Pairwise (· < ·) ∧
    (∀ i : ℕ, i + 1 < (runge_kutta_4th_order f1_0 eta_max h).eta.length →
      (runge_kutta_4th_order f1_0 eta_max h).eta.getD (i + 1) 0 -
        (runge_kutta_4th_order f1_0 eta_max h).eta.getD i 0 = h) ∧
    ((runge_kutta_4th_order f1_0 eta_max h).eta.length : ℤ) = ⌈eta_max / h⌉ + 1 := by
  rw [rk_eta]
  refine ⟨arange_head eta_max h hh hm, arange_pairwise_lt _ h hh, ?_,
    arange_grid_length eta_max h hh hm⟩
  intro i hi
  rw [arange_getD _ h (i + 1) hi, arange_getD _ h i (by omega)]
  push_cast
  ring

/-- Witness for C6's amended theorem at eta_max = 1, h = 1. -/
theorem grid_properties_witness :
    (runge_kutta_4th_order 0 1 1).eta.head? = some 0 ∧
    ((runge_kutta_4th_order 0 1 1).eta.length : ℤ) = ⌈(1 : ℚ) / 1⌉ + 1 :=
  ⟨(grid_properties 0 1 1 (by norm_num) (by norm_num)).1,
   (grid_properties 0 1 1 (by norm_num) (by norm_num)).2.2.2⟩

/-- C6 counterexample: at eta_max = -2, h = 1 the grid is empty, so it
neither starts at 0 nor has length ⌈eta_max/h⌉ + 1 (which is -1). -/
theorem grid_counterexample :
    ¬((runge_kutta_4th_order 0 (-2) 1).eta.head? = some 0 ∧
      ((runge_kutta_4th_order 0 (-2) 1).eta.length : ℤ) = ⌈(-2 : ℚ) / 1⌉ + 1) := by
  with_unfolding_all decide

/-- C8 (amended): for any trial parameter, any eta_max ≥ 0 and any
h > 0, the four returned sequences f, fp, fpp and eta all have the same
length, the number of grid points.  (For eta_max < -h the claim fails:
the grid is empty while f, fp, fpp still hold the initial point, see the
counterexample.) -/
theorem equal_length_sequences (f1_0 eta_max h : ℚ) (hm : 0 ≤ eta_max) (hh : 0 < h) :
    (runge_kutta_4th_order f1_0 eta_max h).f.length =
      (runge_kutta_4th_order f1_0 eta_max h).eta.length ∧
    (runge_kutta_4th_order f1_0 eta_max h).fp.length =
      (runge_kutta_4th_order f1_0 eta_max h).eta.length ∧
    (runge_kutta_4th_order f1_0 eta_max h).fpp.length =
      (runge_kutta_4th_order f1_0 eta_max h).eta.length := by
  have hlen := arange_grid_length eta_max h hh hm
  have h2 : (0 : ℤ) ≤ ⌈eta_max / h⌉ := Int.ceil_nonneg (div_nonneg hm hh.le)
  have hpos : 1 ≤ (arange (eta_max + h) h).length := by omega
  refine ⟨?_, ?_, ?_⟩ <;>
  · simp only [runge_kutta_4th_order, List.length_map, trajStates_length]
    omega

/-- Witness for C8's amended theorem at trial 0, eta_max = 1, h = 1. -/
theorem equal_length_sequences_witness :
    (runge_kutta_4th_order 0 1 1).f.length =
      (runge_kutta_4th_order 0 1 1).eta.length ∧
    (runge_kutta_4th_order 0 1 1).fp.length =
      (runge_kutta_4th_order 0 1 1).eta.length ∧
    (runge_kutta_4th_order 0 1 1).fpp.length =
      (runge_kutta_4th_order 0 1 1).eta.length :=
  equal_length_sequences 0 1 1 (by norm_num) (by norm_num)

/-- C8 counterexample: at eta_max = -2, h = 1 the eta grid is empty but
the f sequence still holds the initial point, so the lengths differ. -/
theorem equal_length_counterexample :
    (runge_kutta_4th_order 0 (-2) 1).f.length ≠
      (runge_kutta_4th_order 0 (-2) 1).eta.length := by
  with_unfolding_all decide
